import Mathlib

set_option maxHeartbeats 1000000

/-
  Shallow embedding of the VectorMaths Transform hierarchy
  (src/VectorMaths/src/Transform.cpp, Matrix.cpp, Quat.cpp, Vector.cpp).

  The stateful Transform component is embedded over ℚ: every arithmetic
  operation it performs (matrix products, quaternion-to-matrix conversion,
  translation-column updates) is exact field arithmetic, so the rational
  embedding is faithful and keeps everything decidable.  The C++ object graph
  of Transform pointers is embedded as a store mapping node ids to Transform
  records; pointer fields become ids.  The recursive MarkDirty / GetWorldMatrix
  walks are fuel-bounded; the claims supply an acyclicity certificate under
  which the fuel is sufficient, mirroring the acyclicity the C++ code assumes.

  Operations whose source uses std::sqrt (Vec3::normalised, Quat length
  and normalisation, Quat::fromRotationMatrix) are embedded separately
  over ℝ with Real.sqrt, further below.
-/

/-- Embedding of Vec3 (Vector.hpp): three components. -/
structure Vec3 where
  x : ℚ
  y : ℚ
  z : ℚ
deriving DecidableEq

/-- Embedding of Vec4 (Vector.hpp): four components. -/
structure Vec4 where
  x : ℚ
  y : ℚ
  z : ℚ
  w : ℚ
deriving DecidableEq

/-- Embeds Vec4::dot: ((x * other.x) + (y * other.y) + (z * other.z) + (w * other.w)). -/
def Vec4.dot (a b : Vec4) : ℚ :=
  a.x * b.x + a.y * b.y + a.z * b.z + a.w * b.w

/-- Embedding of Quat (Quat.hpp): components w, x, y, z. -/
structure Quat where
  w : ℚ
  x : ℚ
  y : ℚ
  z : ℚ
deriving DecidableEq

/-- Embedding of Mat4 (Matrix.hpp): the flat column-major array float m[16];
field mI embeds m[I], so the entry at row r, column c is m(c*4+r). -/
structure Mat4 where
  m0 : ℚ
  m1 : ℚ
  m2 : ℚ
  m3 : ℚ
  m4 : ℚ
  m5 : ℚ
  m6 : ℚ
  m7 : ℚ
  m8 : ℚ
  m9 : ℚ
  m10 : ℚ
  m11 : ℚ
  m12 : ℚ
  m13 : ℚ
  m14 : ℚ
  m15 : ℚ
deriving DecidableEq

/-- Embeds the Mat4 default constructor: the identity matrix. -/
def Mat4.identity : Mat4 :=
  ⟨1, 0, 0, 0,
   0, 1, 0, 0,
   0, 0, 1, 0,
   0, 0, 0, 1⟩

/-- Embeds Mat4::operator*(const Mat4 and): result[j*4+i] is the dot product of
row i of this with column j of other, exactly as the source loops compute it. -/
def Mat4.mul (a b : Mat4) : Mat4 :=
  ⟨(Vec4.mk a.m0 a.m4 a.m8 a.m12).dot (Vec4.mk b.m0 b.m1 b.m2 b.m3),
   (Vec4.mk a.m1 a.m5 a.m9 a.m13).dot (Vec4.mk b.m0 b.m1 b.m2 b.m3),
   (Vec4.mk a.m2 a.m6 a.m10 a.m14).dot (Vec4.mk b.m0 b.m1 b.m2 b.m3),
   (Vec4.mk a.m3 a.m7 a.m11 a.m15).dot (Vec4.mk b.m0 b.m1 b.m2 b.m3),
   (Vec4.mk a.m0 a.m4 a.m8 a.m12).dot (Vec4.mk b.m4 b.m5 b.m6 b.m7),
   (Vec4.mk a.m1 a.m5 a.m9 a.m13).dot (Vec4.mk b.m4 b.m5 b.m6 b.m7),
   (Vec4.mk a.m2 a.m6 a.m10 a.m14).dot (Vec4.mk b.m4 b.m5 b.m6 b.m7),
   (Vec4.mk a.m3 a.m7 a.m11 a.m15).dot (Vec4.mk b.m4 b.m5 b.m6 b.m7),
   (Vec4.mk a.m0 a.m4 a.m8 a.m12).dot (Vec4.mk b.m8 b.m9 b.m10 b.m11),
   (Vec4.mk a.m1 a.m5 a.m9 a.m13).dot (Vec4.mk b.m8 b.m9 b.m10 b.m11),
   (Vec4.mk a.m2 a.m6 a.m10 a.m14).dot (Vec4.mk b.m8 b.m9 b.m10 b.m11),
   (Vec4.mk a.m3 a.m7 a.m11 a.m15).dot (Vec4.mk b.m8 b.m9 b.m10 b.m11),
   (Vec4.mk a.m0 a.m4 a.m8 a.m12).dot (Vec4.mk b.m12 b.m13 b.m14 b.m15),
   (Vec4.mk a.m1 a.m5 a.m9 a.m13).dot (Vec4.mk b.m12 b.m13 b.m14 b.m15),
   (Vec4.mk a.m2 a.m6 a.m10 a.m14).dot (Vec4.mk b.m12 b.m13 b.m14 b.m15),
   (Vec4.mk a.m3 a.m7 a.m11 a.m15).dot (Vec4.mk b.m12 b.m13 b.m14 b.m15)⟩

/-- Embeds Mat4::operator*(const Vec4 and): each result component is the dot
product of the corresponding matrix row with the vector. -/
def Mat4.mulVec (a : Mat4) (v : Vec4) : Vec4 :=
  ⟨(Vec4.mk a.m0 a.m4 a.m8 a.m12).dot v,
   (Vec4.mk a.m1 a.m5 a.m9 a.m13).dot v,
   (Vec4.mk a.m2 a.m6 a.m10 a.m14).dot v,
   (Vec4.mk a.m3 a.m7 a.m11 a.m15).dot v⟩

/-- Embeds Mat4::translation(const Vec3 and): copies this and adds the
translation components onto m[12], m[13], m[14]. -/
def Mat4.translation (a : Mat4) (t : Vec3) : Mat4 :=
  { a with m12 := a.m12 + t.x, m13 := a.m13 + t.y, m14 := a.m14 + t.z }

/-- Embeds Mat4::scale(const Vec3 and): this multiplied by the diagonal
scaling matrix built from the argument. -/
def Mat4.scale (a : Mat4) (s : Vec3) : Mat4 :=
  Mat4.mul a
    ⟨s.x, 0, 0, 0,
     0, s.y, 0, 0,
     0, 0, s.z, 0,
     0, 0, 0, 1⟩

/-- Embeds Quat::toRotationMatrix, entry for entry in the source's
column-major order.  Entry m[9] is (2 * (y * z) - (w * x)) with exactly the
source's parenthesisation. -/
def Quat.toRotationMatrix (q : Quat) : Mat4 :=
  ⟨2 * (q.w * q.w + q.x * q.x) - 1,
   2 * (q.x * q.y + q.w * q.z),
   2 * (q.x * q.z - q.w * q.y),
   0,
   2 * (q.x * q.y - q.w * q.z),
   2 * (q.w * q.w + q.y * q.y) - 1,
   2 * (q.y * q.z + q.w * q.x),
   0,
   2 * (q.x * q.z + q.w * q.y),
   2 * (q.y * q.z) - q.w * q.x,
   2 * (q.w * q.w + q.z * q.z) - 1,
   0,
   0, 0, 0, 1⟩

/-- Embedding of the Transform class (Transform.hpp).  The C++ parent pointer
and child pointers become node ids into a store (Option Nat and List Nat). -/
structure Transform where
  position : Vec3
  rotation : Quat
  scale : Vec3
  parent : Option Nat
  children : List Nat
  localMatrix : Mat4
  worldMatrix : Mat4
  dirty : Bool
deriving DecidableEq

/-- A heap of Transform nodes addressed by id; embeds the C++ object graph. -/
abbrev Store : Type := Nat → Transform

/-- Embeds Transform::Transform(): identity pose, unit scale, no parent,
no children, identity matrix caches (Mat4 default constructor), dirty = true. -/
def Transform.standalone : Transform :=
  { position := ⟨0, 0, 0⟩
    rotation := ⟨1, 0, 0, 0⟩
    scale := ⟨1, 1, 1⟩
    parent := none
    children := []
    localMatrix := Mat4.identity
    worldMatrix := Mat4.identity
    dirty := true }

/-- Replaces the node at id n by f applied to it; all other nodes unchanged.
This is how a C++ mutation through a Transform pointer appears in the store. -/
def updStore (s : Store) (n : Nat) (f : Transform → Transform) : Store :=
  fun i => if i = n then f (s i) else s i

/-- The for-loop of Transform::MarkDirty over the child list, parametric in
the recursive call applied to each child. -/
def markDirtyList (md : Store → Nat → Store) : List Nat → Store → Store
  | [], s => s
  | c :: cs, s => markDirtyList md cs (md s c)

/-- Embeds Transform::MarkDirty(): set dirty = true on this node, then
recurse into every child.  The C++ recursion terminates only on acyclic
hierarchies; the embedding bounds the recursion depth by fuel, and the
theorems assume fuel large enough to cover the subtree (ChildRanked). -/
def markDirtyFuel : Nat → Nat → Store → Store
  | 0, _, s => s
  | fuel + 1, n, s =>
    markDirtyList (fun s' c => markDirtyFuel fuel c s')
      (((updStore s n (fun t => { t with dirty := true })) n).children)
      (updStore s n (fun t => { t with dirty := true }))

/-- Embeds Transform::SetPosition: assign, then MarkDirty. -/
def setPosition (fuel : Nat) (s : Store) (n : Nat) (v : Vec3) : Store :=
  markDirtyFuel fuel n (updStore s n (fun t => { t with position := v }))

/-- Embeds Transform::SetRotation: assign, then MarkDirty. -/
def setRotation (fuel : Nat) (s : Store) (n : Nat) (q : Quat) : Store :=
  markDirtyFuel fuel n (updStore s n (fun t => { t with rotation := q }))

/-- Embeds Transform::SetScale: assign, then MarkDirty. -/
def setScale (fuel : Nat) (s : Store) (n : Nat) (v : Vec3) : Store :=
  markDirtyFuel fuel n (updStore s n (fun t => { t with scale := v }))

/-- Embeds Transform::SetParent: reassign the parent id, then MarkDirty. -/
def setParent (fuel : Nat) (s : Store) (n : Nat) (p : Option Nat) : Store :=
  markDirtyFuel fuel n (updStore s n (fun t => { t with parent := p }))

/-- Embeds Transform::AddChild: emplace_back the child on this node's list,
then child->SetParent(this). -/
def addChild (fuel : Nat) (s : Store) (p c : Nat) : Store :=
  setParent fuel
    (updStore s p (fun t => { t with children := t.children ++ [c] })) c (some p)

/-- Embeds Transform::RemoveChild: std::remove + erase drops every occurrence
of the child from the list; this happens only when the child was present
(it != end), and afterwards, when the child's parent is this node, the
child's parent is cleared via SetParent(nullptr). -/
def removeChild (fuel : Nat) (s : Store) (p c : Nat) : Store :=
  if c ∈ (s p).children then
    if ((updStore s p
          (fun t => { t with children := t.children.filter (fun d => decide (d ≠ c)) }))
            c).parent = some p
    then setParent fuel
      (updStore s p
        (fun t => { t with children := t.children.filter (fun d => decide (d ≠ c)) }))
      c none
    else updStore s p
      (fun t => { t with children := t.children.filter (fun d => decide (d ≠ c)) })
  else s

/-- Embeds Transform::GetLocalMatrix (a const method mutating the mutable
cache): when dirty, recompute scaleMat = identity.scale(scale),
rotateMat = rotation.toRotationMatrix(), localMatrix = rotateMat * scaleMat,
then localMatrix = localMatrix.translation(position), clear dirty; otherwise
return the cache.  Returns the value and the post-call store. -/
def getLocalMatrix (s : Store) (n : Nat) : Mat4 × Store :=
  if (s n).dirty then
    let scaleMat := Mat4.identity.scale (s n).scale
    let rotateMat := (s n).rotation.toRotationMatrix
    let lm := (Mat4.mul rotateMat scaleMat).translation (s n).position
    (lm, updStore s n (fun t => { t with localMatrix := lm, dirty := false }))
  else ((s n).localMatrix, s)

/-- Embeds Transform::GetWorldMatrix: when a parent exists, the result is
parent->GetWorldMatrix() * GetLocalMatrix(); otherwise GetLocalMatrix();
either way the result is stored in the worldMatrix cache.  The recursion
along the parent chain is fuel-bounded (the C++ code assumes acyclicity). -/
def getWorldMatrix : Nat → Store → Nat → Mat4 × Store
  | 0, s, n => ((s n).worldMatrix, s)
  | fuel + 1, s, n =>
    match (s n).parent with
    | some p =>
      let pr := getWorldMatrix fuel s p
      let lr := getLocalMatrix pr.2 n
      let w := Mat4.mul pr.1 lr.1
      (w, updStore lr.2 n (fun t => { t with worldMatrix := w }))
    | none =>
      let lr := getLocalMatrix s n
      (lr.1, updStore lr.2 n (fun t => { t with worldMatrix := lr.1 }))

/-- The node m is n itself or a transitive descendant of n through the
children lists of store s. -/
inductive Desc (s : Store) : Nat → Nat → Prop where
  | refl (n : Nat) : Desc s n n
  | child {n c m : Nat} : c ∈ (s n).children → Desc s c m → Desc s n m

/-- Acyclicity certificate for the child graph: every child has a strictly
smaller rank than the node listing it.  The C++ code assumes (and never
checks) that the hierarchy is acyclic; a rank function witnesses that. -/
def ChildRanked (s : Store) (rank : Nat → Nat) : Prop :=
  ∀ i c, c ∈ (s i).children → rank c < rank i

/-- Two Transform records that agree on every field except possibly dirty. -/
def sameSkeleton (t u : Transform) : Prop :=
  t.position = u.position ∧ t.rotation = u.rotation ∧ t.scale = u.scale ∧
  t.parent = u.parent ∧ t.children = u.children ∧
  t.localMatrix = u.localMatrix ∧ t.worldMatrix = u.worldMatrix

theorem sameSkeleton_refl (t : Transform) : sameSkeleton t t :=
  ⟨rfl, rfl, rfl, rfl, rfl, rfl, rfl⟩

theorem sameSkeleton_trans {a b c : Transform}
    (h1 : sameSkeleton a b) (h2 : sameSkeleton b c) : sameSkeleton a c :=
  ⟨h1.1.trans h2.1, h1.2.1.trans h2.2.1, h1.2.2.1.trans h2.2.2.1,
   h1.2.2.2.1.trans h2.2.2.2.1, h1.2.2.2.2.1.trans h2.2.2.2.2.1,
   h1.2.2.2.2.2.1.trans h2.2.2.2.2.2.1, h1.2.2.2.2.2.2.trans h2.2.2.2.2.2.2⟩

theorem updStore_same (s : Store) (n : Nat) (f : Transform → Transform) :
    updStore s n f n = f (s n) := by
  simp [updStore]

theorem updStore_other (s : Store) (n : Nat) (f : Transform → Transform)
    (i : Nat) (h : i ≠ n) : updStore s n f i = s i := by
  simp [updStore, h]

/-- MarkDirty only flips dirty flags: every other field of every node is
unchanged. -/
theorem markDirtyFuel_skel :
    ∀ fuel n (s : Store) i, sameSkeleton (markDirtyFuel fuel n s i) (s i) := by
  intro fuel
  induction fuel with
  | zero =>
    intro n s i
    simp only [markDirtyFuel]
    exact sameSkeleton_refl _
  | succ f ih =>
    intro n s i
    have hlist : ∀ (l : List Nat) (s' : Store) i,
        sameSkeleton (markDirtyList (fun s2 c => markDirtyFuel f c s2) l s' i) (s' i) := by
      intro l
      induction l with
      | nil =>
        intro s' i
        simp only [markDirtyList]
        exact sameSkeleton_refl _
      | cons c cs ihl =>
        intro s' i
        simp only [markDirtyList]
        exact sameSkeleton_trans (ihl _ _) (ih c s' i)
    simp only [markDirtyFuel]
    refine sameSkeleton_trans (hlist _ _ _) ?_
    simp only [updStore]
    split
    · exact ⟨rfl, rfl, rfl, rfl, rfl, rfl, rfl⟩
    · exact sameSkeleton_refl _

/-- List version of markDirtyFuel_skel. -/
theorem markDirtyList_skel (fuel : Nat) :
    ∀ (l : List Nat) (s : Store) i,
      sameSkeleton (markDirtyList (fun s2 c => markDirtyFuel fuel c s2) l s i) (s i) := by
  intro l
  induction l with
  | nil =>
    intro s i
    simp only [markDirtyList]
    exact sameSkeleton_refl _
  | cons c cs ihl =>
    intro s i
    simp only [markDirtyList]
    exact sameSkeleton_trans (ihl _ _) (markDirtyFuel_skel fuel c s i)

theorem markDirtyFuel_children (fuel n : Nat) (s : Store) (i : Nat) :
    (markDirtyFuel fuel n s i).children = (s i).children :=
  (markDirtyFuel_skel fuel n s i).2.2.2.2.1

theorem markDirtyFuel_parent (fuel n : Nat) (s : Store) (i : Nat) :
    (markDirtyFuel fuel n s i).parent = (s i).parent :=
  (markDirtyFuel_skel fuel n s i).2.2.2.1

/-- MarkDirty never clears a dirty flag. -/
theorem markDirtyFuel_mono :
    ∀ fuel n (s : Store) i, (s i).dirty = true →
      (markDirtyFuel fuel n s i).dirty = true := by
  intro fuel
  induction fuel with
  | zero =>
    intro n s i h
    simpa only [markDirtyFuel] using h
  | succ f ih =>
    intro n s i h
    have hlist : ∀ (l : List Nat) (s' : Store) i, (s' i).dirty = true →
        (markDirtyList (fun s2 c => markDirtyFuel f c s2) l s' i).dirty = true := by
      intro l
      induction l with
      | nil =>
        intro s' i h'
        simpa only [markDirtyList] using h'
      | cons c cs ihl =>
        intro s' i h'
        simp only [markDirtyList]
        exact ihl _ _ (ih c s' i h')
    simp only [markDirtyFuel]
    apply hlist
    simp only [updStore]
    split
    · rfl
    · exact h

/-- List version of markDirtyFuel_mono. -/
theorem markDirtyList_mono (fuel : Nat) :
    ∀ (l : List Nat) (s : Store) i, (s i).dirty = true →
      (markDirtyList (fun s2 c => markDirtyFuel fuel c s2) l s i).dirty = true := by
  intro l
  induction l with
  | nil =>
    intro s i h
    simpa only [markDirtyList] using h
  | cons c cs ihl =>
    intro s i h
    simp only [markDirtyList]
    exact ihl _ _ (markDirtyFuel_mono fuel c s i h)

/-- Descendant-hood only depends on the children lists. -/
theorem Desc_transport {s s' : Store}
    (h : ∀ i, (s' i).children = (s i).children) :
    ∀ {n m}, Desc s n m → Desc s' n m := by
  intro n m hd
  induction hd with
  | refl n => exact Desc.refl n
  | child hc _ ih => exact Desc.child (by rw [h]; exact hc) ih

/-- The acyclicity certificate only depends on the children lists. -/
theorem ChildRanked_transport {s s' : Store} {rank : Nat → Nat}
    (h : ∀ i, (s' i).children = (s i).children) :
    ChildRanked s rank → ChildRanked s' rank := by
  intro hcr i c hc
  exact hcr i c (by rw [← h]; exact hc)

/-- Main MarkDirty property: with enough fuel for the (acyclic) subtree,
MarkDirty sets the dirty flag on the node and every transitive descendant. -/
theorem markDirtyFuel_sets (rank : Nat → Nat) :
    ∀ fuel n (s : Store) m, ChildRanked s rank → rank n < fuel →
      Desc s n m → (markDirtyFuel fuel n s m).dirty = true := by
  intro fuel
  induction fuel with
  | zero =>
    intro n s m _ hrank _
    exact absurd hrank (Nat.not_lt_zero _)
  | succ f ih =>
    intro n s m hcr hrank hdesc
    simp only [markDirtyFuel]
    have hskel : ∀ i, sameSkeleton (updStore s n (fun t => { t with dirty := true }) i) (s i) := by
      intro i
      simp only [updStore]
      split
      · exact ⟨rfl, rfl, rfl, rfl, rfl, rfl, rfl⟩
      · exact sameSkeleton_refl _
    cases hdesc with
    | refl =>
      apply markDirtyList_mono
      simp [updStore]
    | child hc hd =>
      rename_i c
      have hchil : ((updStore s n (fun t => { t with dirty := true })) n).children
          = (s n).children := (hskel n).2.2.2.2.1
      rw [hchil]
      have hrankc : rank c < f := by
        have h1 : rank c < rank n := hcr n c hc
        omega
      have key : ∀ (l : List Nat) (s' : Store), (∀ i, sameSkeleton (s' i) (s i)) →
          c ∈ l →
          (markDirtyList (fun s2 c2 => markDirtyFuel f c2 s2) l s' m).dirty = true := by
        intro l
        induction l with
        | nil =>
          intro s' _ hmem
          cases hmem
        | cons d ds ihl =>
          intro s' hsk hmem
          simp only [markDirtyList]
          rcases List.mem_cons.mp hmem with heq | hmem2
          · subst heq
            apply markDirtyList_mono
            refine ih c s' m ?_ hrankc ?_
            · exact ChildRanked_transport (fun i => (hsk i).2.2.2.2.1) hcr
            · exact Desc_transport (fun i => (hsk i).2.2.2.2.1) hd
          · apply ihl
            · intro i
              exact sameSkeleton_trans (markDirtyFuel_skel f d s' i) (hsk i)
            · exact hmem2
      exact key _ _ hskel hc

/-- The matrix Translation(p): the identity fed through Mat4::translation. -/
def translationMatrixOf (p : Vec3) : Mat4 := Mat4.identity.translation p

/-- The matrix ScaleMatrix(v): the identity fed through Mat4::scale. -/
def scaleMatrixOf (v : Vec3) : Mat4 := Mat4.identity.scale v

/-- The matrix GetLocalMatrix computes, (rotation matrix * scaling matrix)
with the position added onto the translation column, equals the product
Translation(position) * RotationMatrix(rotation) * ScaleMatrix(scale). -/
theorem localMatrix_eq_trs (p : Vec3) (q : Quat) (v : Vec3) :
    (Mat4.mul q.toRotationMatrix (Mat4.identity.scale v)).translation p =
    Mat4.mul (Mat4.mul (translationMatrixOf p) q.toRotationMatrix)
      (scaleMatrixOf v) := by
  cases p
  cases q
  cases v
  simp only [translationMatrixOf, scaleMatrixOf, Mat4.translation, Mat4.scale,
    Mat4.mul, Mat4.identity, Quat.toRotationMatrix, Vec4.dot, Mat4.mk.injEq]
  refine ⟨?_, ?_, ?_, ?_, ?_, ?_, ?_, ?_, ?_, ?_, ?_, ?_, ?_, ?_, ?_, ?_⟩ <;> ring

/-- Concrete store for the C1 example: one standalone node with
position (1,0,0), identity rotation, scale (2,1,1); dirty on creation. -/
def c1Store : Store := fun _ =>
  { Transform.standalone with position := ⟨1, 0, 0⟩, scale := ⟨2, 1, 1⟩ }

/-- C1: on a dirty Transform, GetLocalMatrix recomputes, caches and returns
Translation(position) * RotationMatrix(rotation) * ScaleMatrix(scale), and
clears dirty; for position (1,0,0), identity rotation, scale (2,1,1) the
returned matrix maps the point (1,0,0) to (3,0,0). -/
theorem getLocalMatrix_dirty_spec (s : Store) (n : Nat) (h : (s n).dirty = true) :
    (getLocalMatrix s n).1 =
      Mat4.mul (Mat4.mul (translationMatrixOf (s n).position)
        ((s n).rotation.toRotationMatrix)) (scaleMatrixOf (s n).scale) ∧
    ((getLocalMatrix s n).2 n).localMatrix = (getLocalMatrix s n).1 ∧
    ((getLocalMatrix s n).2 n).dirty = false ∧
    Mat4.mulVec (getLocalMatrix c1Store 0).1 ⟨1, 0, 0, 1⟩ = ⟨3, 0, 0, 1⟩ := by
  refine ⟨?_, ?_, ?_, by
    norm_num [getLocalMatrix, c1Store, Transform.standalone, Mat4.mulVec, Mat4.mul,
      Mat4.scale, Mat4.translation, Mat4.identity, Quat.toRotationMatrix, Vec4.dot,
      Vec4.mk.injEq]⟩
  · simp only [getLocalMatrix, h, if_true]
    exact localMatrix_eq_trs _ _ _
  · simp [getLocalMatrix, h, updStore]
  · simp [getLocalMatrix, h, updStore]

/-- Witness for C1 at the concrete store c1Store. -/
theorem getLocalMatrix_dirty_spec_w :
    (c1Store 0).dirty = true ∧
    (getLocalMatrix c1Store 0).1 =
      Mat4.mul (Mat4.mul (translationMatrixOf (c1Store 0).position)
        ((c1Store 0).rotation.toRotationMatrix)) (scaleMatrixOf (c1Store 0).scale) :=
  ⟨by decide, (getLocalMatrix_dirty_spec c1Store 0 (by decide)).1⟩

/-- Concrete three-node chain 0 -> 1 -> 2 (clean flags) for the C2 witness. -/
def chainStore : Store := fun i =>
  match i with
  | 0 => { Transform.standalone with children := [1], dirty := false }
  | 1 => { Transform.standalone with parent := some 0, children := [2], dirty := false }
  | _ => { Transform.standalone with parent := some 1, dirty := false }

/-- C2: after SetPosition, SetRotation or SetScale on node n of an acyclic
hierarchy (rank certificate, with enough fuel for the subtree), the dirty
flag of n and of every transitive descendant m is true. -/
theorem set_dirty_propagates (s : Store) (rank : Nat → Nat) (fuel n m : Nat)
    (v : Vec3) (q : Quat) (sc : Vec3)
    (hcr : ChildRanked s rank) (hf : rank n < fuel) (hd : Desc s n m) :
    ((setPosition fuel s n v) m).dirty = true ∧
    ((setRotation fuel s n q) m).dirty = true ∧
    ((setScale fuel s n sc) m).dirty = true := by
  have hup : ∀ (f : Transform → Transform), (∀ t, (f t).children = t.children) →
      ∀ i, ((updStore s n f) i).children = (s i).children := by
    intro f hfc i
    simp only [updStore]
    split
    · exact hfc _
    · rfl
  refine ⟨?_, ?_, ?_⟩
  · exact markDirtyFuel_sets rank fuel n _ m
      (ChildRanked_transport
        (hup (fun t => { t with position := v }) (fun t => rfl)) hcr) hf
      (Desc_transport (hup (fun t => { t with position := v }) (fun t => rfl)) hd)
  · exact markDirtyFuel_sets rank fuel n _ m
      (ChildRanked_transport
        (hup (fun t => { t with rotation := q }) (fun t => rfl)) hcr) hf
      (Desc_transport (hup (fun t => { t with rotation := q }) (fun t => rfl)) hd)
  · exact markDirtyFuel_sets rank fuel n _ m
      (ChildRanked_transport
        (hup (fun t => { t with scale := sc }) (fun t => rfl)) hcr) hf
      (Desc_transport (hup (fun t => { t with scale := sc }) (fun t => rfl)) hd)

/-- Witness for C2: mutating the root of the chain 0 -> 1 -> 2 marks the
grandchild 2 dirty. -/
theorem set_dirty_propagates_w :
    ((setPosition 3 chainStore 0 ⟨5, 0, 0⟩) 2).dirty = true ∧
    ((setRotation 3 chainStore 0 ⟨0, 1, 0, 0⟩) 2).dirty = true ∧
    ((setScale 3 chainStore 0 ⟨2, 2, 2⟩) 2).dirty = true :=
  set_dirty_propagates chainStore (fun i => 2 - i) 3 0 2 ⟨5, 0, 0⟩ ⟨0, 1, 0, 0⟩ ⟨2, 2, 2⟩
    (by
      intro i c hc
      match i with
      | 0 =>
        simp [chainStore] at hc
        subst hc
        decide
      | 1 =>
        simp [chainStore] at hc
        subst hc
        decide
      | (k + 2) =>
        simp [chainStore, Transform.standalone] at hc)
    (by decide)
    (Desc.child (show 1 ∈ (chainStore 0).children by decide)
      (Desc.child (show 2 ∈ (chainStore 1).children by decide) (Desc.refl 2)))

/-- C4: two consecutive GetLocalMatrix calls with no mutation in between
return the same matrix; after the first call dirty is false, the returned
value is the cached localMatrix, and the second call leaves the store
untouched (no recomputation). -/
theorem getLocalMatrix_cached (s : Store) (n : Nat) :
    (getLocalMatrix (getLocalMatrix s n).2 n).1 = (getLocalMatrix s n).1 ∧
    ((getLocalMatrix s n).2 n).dirty = false ∧
    (getLocalMatrix s n).1 = ((getLocalMatrix s n).2 n).localMatrix ∧
    (getLocalMatrix (getLocalMatrix s n).2 n).2 = (getLocalMatrix s n).2 := by
  by_cases h : (s n).dirty = true
  · simp [getLocalMatrix, h, updStore]
  · simp only [Bool.not_eq_true] at h
    simp [getLocalMatrix, h]

/-- Concrete parent/child pair for the C3 example: parent 0 at (1,0,0) with
child 1 at local (0,1,0), identity rotations, unit scales. -/
def c3Store : Store := fun i =>
  match i with
  | 0 => { Transform.standalone with position := ⟨1, 0, 0⟩, children := [1] }
  | _ => { Transform.standalone with position := ⟨0, 1, 0⟩, parent := some 0 }

/-- C3: with a parent, GetWorldMatrix returns parent.GetWorldMatrix() *
GetLocalMatrix() (state threaded left to right); with no parent it returns
GetLocalMatrix(); the concrete parent-child pair maps the origin to (1,1,0). -/
theorem getWorldMatrix_spec (fuel : Nat) (s : Store) (n p : Nat) :
    ((s n).parent = some p →
      (getWorldMatrix (fuel + 1) s n).1 =
        Mat4.mul (getWorldMatrix fuel s p).1
          (getLocalMatrix (getWorldMatrix fuel s p).2 n).1) ∧
    ((s n).parent = none →
      (getWorldMatrix (fuel + 1) s n).1 = (getLocalMatrix s n).1) ∧
    Mat4.mulVec (getWorldMatrix 2 c3Store 1).1 ⟨0, 0, 0, 1⟩ = ⟨1, 1, 0, 1⟩ := by
  refine ⟨?_, ?_, by
    norm_num [getWorldMatrix, getLocalMatrix, c3Store, Transform.standalone, updStore,
      Mat4.mulVec, Mat4.mul, Mat4.scale, Mat4.translation, Mat4.identity,
      Quat.toRotationMatrix, Vec4.dot, Vec4.mk.injEq]⟩
  · intro h
    simp [getWorldMatrix, h]
  · intro h
    simp [getWorldMatrix, h]

/-- Witness for C3: the parented and parentless cases at the concrete pair. -/
theorem getWorldMatrix_spec_w :
    ((c3Store 1).parent = some 0 ∧
      (getWorldMatrix 2 c3Store 1).1 =
        Mat4.mul (getWorldMatrix 1 c3Store 0).1
          (getLocalMatrix (getWorldMatrix 1 c3Store 0).2 1).1) ∧
    ((c3Store 0).parent = none ∧
      (getWorldMatrix 1 c3Store 0).1 = (getLocalMatrix c3Store 0).1) :=
  ⟨⟨by decide, (getWorldMatrix_spec 1 c3Store 1 0).1 (by decide)⟩,
   ⟨by decide, (getWorldMatrix_spec 0 c3Store 0 0).2.1 (by decide)⟩⟩

theorem updStore_children_pres (s : Store) (n : Nat) (f : Transform → Transform)
    (hf : ∀ t, (f t).children = t.children) (i : Nat) :
    ((updStore s n f) i).children = (s i).children := by
  simp only [updStore]
  split
  · exact hf _
  · rfl

theorem updStore_parent_pres (s : Store) (n : Nat) (f : Transform → Transform)
    (hf : ∀ t, (f t).parent = t.parent) (i : Nat) :
    ((updStore s n f) i).parent = (s i).parent := by
  simp only [updStore]
  split
  · exact hf _
  · rfl

/-- SetParent assigns the new parent id of the target node. -/
theorem setParent_parent_self (fuel : Nat) (s : Store) (n : Nat) (pp : Option Nat) :
    ((setParent fuel s n pp) n).parent = pp := by
  rw [setParent, markDirtyFuel_parent, updStore_same]

/-- SetParent leaves every children list unchanged. -/
theorem setParent_children_pres (fuel : Nat) (s : Store) (n : Nat)
    (pp : Option Nat) (i : Nat) :
    ((setParent fuel s n pp) i).children = (s i).children := by
  rw [setParent, markDirtyFuel_children]
  exact updStore_children_pres s n (fun t => { t with parent := pp }) (fun t => rfl) i

/-- AddChild links the child's parent back-reference to this node. -/
theorem addChild_parent (fuel : Nat) (s : Store) (p c : Nat) :
    ((addChild fuel s p c) c).parent = some p := by
  rw [addChild, setParent_parent_self]

/-- AddChild appends the child to this node's list (no duplicate check). -/
theorem addChild_children_self (fuel : Nat) (s : Store) (p c : Nat) :
    ((addChild fuel s p c) p).children = (s p).children ++ [c] := by
  rw [addChild, setParent_children_pres, updStore_same]

/-- AddChild leaves every other node's children list unchanged. -/
theorem addChild_children_other (fuel : Nat) (s : Store) (p c i : Nat) (h : i ≠ p) :
    ((addChild fuel s p c) i).children = (s i).children := by
  rw [addChild, setParent_children_pres, updStore_other _ _ _ _ h]

/-- RemoveChild on a present child whose parent is this node: the child's
parent is cleared, and this node's list is the filter dropping every
occurrence of the child. -/
theorem removeChild_present_spec (fuel : Nat) (s : Store) (p c : Nat)
    (hmem : c ∈ (s p).children) (hpar : (s c).parent = some p) :
    ((removeChild fuel s p c) c).parent = none ∧
    ((removeChild fuel s p c) p).children
      = (s p).children.filter (fun d => decide (d ≠ c)) := by
  have hs2 : ∀ i, ((updStore s p
      (fun t => { t with children := t.children.filter (fun d => decide (d ≠ c)) }))
        i).parent = (s i).parent :=
    updStore_parent_pres _ _ _ (fun t => rfl)
  unfold removeChild
  rw [if_pos hmem, if_pos ((hs2 c).trans hpar)]
  constructor
  · rw [setParent_parent_self]
  · rw [setParent_children_pres, updStore_same]

/-- Store of standalone nodes, the starting point for hierarchy scenarios. -/
def flatStore : Store := fun _ => Transform.standalone

/-- C5 counterexample: with distinct nodes 0 (parentA), 1 (parentB), 2 (n),
after parentA.AddChild(n) then parentB.AddChild(n) the node n has parent
parentB yet is still present in parentA's child list, contradicting the
claimed absence. -/
theorem addChild_reparent_counterexample :
    ((addChild 1 (addChild 1 flatStore 0 2) 1 2) 2).parent = some 1 ∧
    2 ∈ ((addChild 1 (addChild 1 flatStore 0 2) 1 2) 0).children := by
  decide

/-- C5 amended: after parentA.AddChild(n) then parentB.AddChild(n) on
distinct nodes, n.GetParent() is parentB, but n REMAINS in parentA's child
list: AddChild establishes the new link without detaching the old one. -/
theorem addChild_reparent_keeps_old (s : Store) (pA pB n f1 f2 : Nat)
    (hAB : pA ≠ pB) (hA : n ≠ pA) (hB : n ≠ pB) :
    ((addChild f2 (addChild f1 s pA n) pB n) n).parent = some pB ∧
    n ∈ ((addChild f2 (addChild f1 s pA n) pB n) pA).children := by
  constructor
  · exact addChild_parent f2 (addChild f1 s pA n) pB n
  · rw [addChild_children_other f2 (addChild f1 s pA n) pB n pA hAB,
      addChild_children_self]
    simp

/-- Witness for the C5 amended theorem at the concrete three-node store. -/
theorem addChild_reparent_keeps_old_w :
    ((addChild 1 (addChild 1 flatStore 0 2) 1 2) 2).parent = some 1 ∧
    2 ∈ ((addChild 1 (addChild 1 flatStore 0 2) 1 2) 0).children :=
  addChild_reparent_keeps_old flatStore 0 1 2 1 1
    (by decide) (by decide) (by decide)

/-- C7: AddChild(n) then RemoveChild(n) on a parent that did not already
list n leaves n's parent cleared (none) and n absent from the parent's
child list. -/
theorem addChild_removeChild_roundtrip (s : Store) (p n f1 f2 : Nat)
    (hnot : n ∉ (s p).children) :
    ((removeChild f2 (addChild f1 s p n) p n) n).parent = none ∧
    n ∉ ((removeChild f2 (addChild f1 s p n) p n) p).children := by
  have hmem : n ∈ ((addChild f1 s p n) p).children := by
    rw [addChild_children_self]
    simp
  have hpar : ((addChild f1 s p n) n).parent = some p :=
    addChild_parent f1 s p n
  have hspec := removeChild_present_spec f2 (addChild f1 s p n) p n hmem hpar
  refine ⟨hspec.1, ?_⟩
  rw [hspec.2]
  simp [List.mem_filter]

/-- Witness for C7 at the concrete store. -/
theorem addChild_removeChild_roundtrip_w :
    ((removeChild 1 (addChild 1 flatStore 0 2) 0 2) 2).parent = none ∧
    2 ∉ ((removeChild 1 (addChild 1 flatStore 0 2) 0 2) 0).children :=
  addChild_removeChild_roundtrip flatStore 0 2 1 1 (by decide)

/-- C8: RemoveChild of a node that is not in the child list is a complete
no-op: the whole store (in particular this parent's list and the child's
parent field) is unchanged. -/
theorem removeChild_absent_noop (fuel : Nat) (s : Store) (p c : Nat)
    (h : c ∉ (s p).children) :
    removeChild fuel s p c = s := by
  unfold removeChild
  rw [if_neg h]

/-- Witness for C8 at the concrete store. -/
theorem removeChild_absent_noop_w :
    2 ∉ (flatStore 0).children ∧ removeChild 1 flatStore 0 2 = flatStore :=
  ⟨by decide, removeChild_absent_noop 1 flatStore 0 2 (by decide)⟩

/-- C10: AddChild twice appends two entries for the child (no duplicate
check); a single RemoveChild then erases every occurrence (remove+erase over
the whole range) and clears the child's parent to none. -/
theorem addChild_twice_removeChild (s : Store) (p c f1 f2 f3 : Nat)
    (hnot : c ∉ (s p).children) :
    List.count c ((addChild f2 (addChild f1 s p c) p c) p).children = 2 ∧
    c ∉ ((removeChild f3 (addChild f2 (addChild f1 s p c) p c) p c) p).children ∧
    ((removeChild f3 (addChild f2 (addChild f1 s p c) p c) p c) c).parent = none := by
  have h2 : ((addChild f2 (addChild f1 s p c) p c) p).children
      = (s p).children ++ [c] ++ [c] := by
    rw [addChild_children_self, addChild_children_self]
  have hcount : List.count c ((addChild f2 (addChild f1 s p c) p c) p).children = 2 := by
    rw [h2]
    simp [List.count_append, List.count_eq_zero.mpr hnot]
  have hmem : c ∈ ((addChild f2 (addChild f1 s p c) p c) p).children := by
    rw [h2]
    simp
  have hpar : ((addChild f2 (addChild f1 s p c) p c) c).parent = some p :=
    addChild_parent f2 (addChild f1 s p c) p c
  have hspec := removeChild_present_spec f3 (addChild f2 (addChild f1 s p c) p c)
    p c hmem hpar
  refine ⟨hcount, ?_, hspec.1⟩
  rw [hspec.2]
  simp [List.mem_filter]

/-- Witness for C10 at the concrete store. -/
theorem addChild_twice_removeChild_w :
    List.count 2 ((addChild 1 (addChild 1 flatStore 0 2) 0 2) 0).children = 2 ∧
    2 ∉ ((removeChild 1 (addChild 1 (addChild 1 flatStore 0 2) 0 2) 0 2) 0).children ∧
    ((removeChild 1 (addChild 1 (addChild 1 flatStore 0 2) 0 2) 0 2) 2).parent = none :=
  addChild_twice_removeChild flatStore 0 2 1 1 1 (by decide)

/-
  Real-valued layer.  Vec3::normalised, Quaternion::length/normalised and
  Quaternion::fromRotationMatrix call std::sqrt, which has no exact rational
  counterpart; these operations are embedded over ℝ with Real.sqrt (the
  idealisation of the source's float arithmetic).
-/

noncomputable section

/-- Real-valued embedding of Vec3 for the sqrt-using operations. -/
structure RVec3 where
  x : ℝ
  y : ℝ
  z : ℝ

/-- Embeds Vec3::operator- (componentwise difference). -/
def RVec3.sub (a b : RVec3) : RVec3 :=
  ⟨a.x - b.x, a.y - b.y, a.z - b.z⟩

/-- Embeds Vec3::dot. -/
def RVec3.dot (a b : RVec3) : ℝ :=
  a.x * b.x + a.y * b.y + a.z * b.z

/-- Embeds Vec3::cross. -/
def RVec3.cross (a b : RVec3) : RVec3 :=
  ⟨a.y * b.z - a.z * b.y, a.z * b.x - a.x * b.z, a.x * b.y - a.y * b.x⟩

/-- Embeds Vec3::length: the square root of the sum of squares. -/
def RVec3.length (v : RVec3) : ℝ :=
  Real.sqrt (v.x * v.x + v.y * v.y + v.z * v.z)

/-- Embeds Vec3::normalised: a magnitude below 1e-6 is clamped to the zero
vector (the source's guard); otherwise divide componentwise by the magnitude. -/
def RVec3.normalised (v : RVec3) : RVec3 :=
  if v.length < 1 / 1000000 then ⟨0, 0, 0⟩
  else ⟨v.x / v.length, v.y / v.length, v.z / v.length⟩

/-- Real-valued embedding of the Quaternion class. -/
structure RQuat where
  w : ℝ
  x : ℝ
  y : ℝ
  z : ℝ

/-- Embeds Quaternion::operator*(const Quaternion and) with exactly the
source formulas; the source convention is reversed (this * q applies this
first, then q), so each product reads q-component times this-component. -/
def RQuat.mul (a b : RQuat) : RQuat :=
  ⟨b.w * a.w - b.x * a.x - b.y * a.y - b.z * a.z,
   b.w * a.x + b.x * a.w + b.y * a.z - b.z * a.y,
   b.w * a.y - b.x * a.z + b.y * a.w + b.z * a.x,
   b.w * a.z + b.x * a.y - b.y * a.x + b.z * a.w⟩

/-- Embeds Quaternion::conjugate. -/
def RQuat.conjugate (q : RQuat) : RQuat :=
  ⟨q.w, -q.x, -q.y, -q.z⟩

/-- Embeds Quaternion::length. -/
def RQuat.length (q : RQuat) : ℝ :=
  Real.sqrt (q.w * q.w + q.x * q.x + q.y * q.y + q.z * q.z)

/-- Embeds Quaternion::normalised: a magnitude below 1e-6 yields the
identity quaternion, otherwise divide componentwise by the magnitude. -/
def RQuat.normalised (q : RQuat) : RQuat :=
  if q.length < 1 / 1000000 then ⟨1, 0, 0, 0⟩
  else ⟨q.w / q.length, q.x / q.length, q.y / q.length, q.z / q.length⟩

/-- Embeds Quaternion::rotateVector: normalise this quaternion, embed v as a
pure quaternion, compute conjugate * v * quat under the source's reversed
product, and take the vector part. -/
def RQuat.rotateVector (q : RQuat) (v : RVec3) : RVec3 :=
  let r := RQuat.mul (RQuat.mul q.normalised.conjugate ⟨0, v.x, v.y, v.z⟩) q.normalised
  ⟨r.x, r.y, r.z⟩

/-- Embeds Transform::Forward(): the axis (0,0,-1) rotated by the rotation
quaternion of the Transform. -/
def forwardOf (q : RQuat) : RVec3 := q.rotateVector ⟨0, 0, -1⟩

/-- Embeds Transform::Right(): the axis (1,0,0) rotated by the rotation. -/
def rightOf (q : RQuat) : RVec3 := q.rotateVector ⟨1, 0, 0⟩

/-- Embeds Transform::Up(): the axis (0,1,0) rotated by the rotation. -/
def upOf (q : RQuat) : RVec3 := q.rotateVector ⟨0, 1, 0⟩

/-- Real-valued embedding of Mat3: the flat column-major array float m[9]. -/
structure RMat3 where
  m0 : ℝ
  m1 : ℝ
  m2 : ℝ
  m3 : ℝ
  m4 : ℝ
  m5 : ℝ
  m6 : ℝ
  m7 : ℝ
  m8 : ℝ

/-- Embeds Quaternion::fromRotationMatrix, branch for branch (trace test,
then the three diagonal-dominance branches), normalising the result. -/
def RQuat.fromRotationMatrix (rm : RMat3) : RQuat :=
  let trace := rm.m0 + rm.m4 + rm.m8
  let q :=
    if trace > 0 then
      let w := Real.sqrt ((trace + 1) / 2)
      RQuat.mk w ((rm.m5 - rm.m7) / (4 * w)) ((rm.m6 - rm.m2) / (4 * w))
        ((rm.m1 - rm.m3) / (4 * w))
    else if rm.m0 > rm.m4 ∧ rm.m0 > rm.m8 then
      let xx := Real.sqrt ((1 + (rm.m0 - rm.m4 - rm.m8)) / 2)
      RQuat.mk ((rm.m5 - rm.m7) / (4 * xx)) xx ((rm.m3 + rm.m1) / (4 * xx))
        ((rm.m6 + rm.m2) / (4 * xx))
    else if rm.m4 > rm.m8 then
      let yy := Real.sqrt ((1 + (rm.m4 - rm.m0 - rm.m8)) / 2)
      RQuat.mk ((rm.m6 - rm.m2) / (4 * yy)) ((rm.m3 + rm.m1) / (4 * yy)) yy
        ((rm.m7 + rm.m5) / (4 * yy))
    else
      let zz := Real.sqrt ((1 + (rm.m8 - rm.m0 - rm.m4)) / 2)
      RQuat.mk ((rm.m1 - rm.m3) / (4 * zz)) ((rm.m6 + rm.m2) / (4 * zz))
        ((rm.m7 + rm.m5) / (4 * zz)) zz
  q.normalised

/-- Embeds the rotation computation of Transform::LookAt: direction basis
from (target - position), right from up x direction, recomputed up, packed
into the source's column-major Mat3 and converted via fromRotationMatrix.
(The method then assigns this quaternion to rotation and calls MarkDirty.) -/
def lookAtRotation (position target up : RVec3) : RQuat :=
  let direction := (target.sub position).normalised
  let right := (up.cross direction).normalised
  let newUp := direction.cross right
  RQuat.fromRotationMatrix
    ⟨right.x, newUp.x, direction.x,
     right.y, newUp.y, direction.y,
     right.z, newUp.z, direction.z⟩

/-- Modelled from the claim's words for C6, NOT from the source: a normalise
with no zero-length guard, whose result on a zero-length input is undefined
(none stands for the NaN outcome of dividing by a zero magnitude). -/
def normalisedUnguardedClaim (v : RVec3) : Option RVec3 :=
  if v.length = 0 then none
  else some ⟨v.x / v.length, v.y / v.length, v.z / v.length⟩

end

theorem RVec3.length_zero : RVec3.length ⟨0, 0, 0⟩ = 0 := by
  show Real.sqrt (0 * 0 + 0 * 0 + 0 * 0) = 0
  norm_num

/-- The zero vector trips the 1e-6 guard: normalised returns the zero
vector, not an undefined value. -/
theorem RVec3.normalised_zero : RVec3.normalised ⟨0, 0, 0⟩ = ⟨0, 0, 0⟩ := by
  unfold RVec3.normalised
  rw [RVec3.length_zero, if_pos (by norm_num)]

/-- Normalising the pure-z quaternion (0,0,0,z), z at least the guard
threshold, gives (0,0,0,1). -/
theorem RQuat.normalised_pure_z (z : ℝ) (hz : 1 / 1000000 ≤ z) :
    RQuat.normalised ⟨0, 0, 0, z⟩ = ⟨0, 0, 0, 1⟩ := by
  have hzpos : (0:ℝ) < z := lt_of_lt_of_le (by norm_num) hz
  have hlen : RQuat.length ⟨0, 0, 0, z⟩ = z := by
    show Real.sqrt (0 * 0 + 0 * 0 + 0 * 0 + z * z) = z
    rw [show (0 * 0 + 0 * 0 + 0 * 0 + z * z : ℝ) = z * z by ring]
    exact Real.sqrt_mul_self hzpos.le
  unfold RQuat.normalised
  rw [hlen, if_neg (not_lt.mpr hz)]
  norm_num [div_self hzpos.ne']

/-- fromRotationMatrix on the all-zero matrix: the trace is 0, all branch
tests fail, the last branch gives (0,0,0,sqrt(1/2)), and normalising yields
(0,0,0,1). -/
theorem fromRotationMatrix_zeroMat :
    RQuat.fromRotationMatrix ⟨0, 0, 0, 0, 0, 0, 0, 0, 0⟩ = ⟨0, 0, 0, 1⟩ := by
  norm_num [RQuat.fromRotationMatrix]
  apply RQuat.normalised_pure_z
  have h2 : Real.sqrt 2 ≤ 2 := by
    have hle := Real.sqrt_le_sqrt (show (2:ℝ) ≤ 4 by norm_num)
    rwa [show Real.sqrt 4 = 2 from by
      rw [show (4:ℝ) = 2 * 2 by norm_num]
      exact Real.sqrt_mul_self (by norm_num)] at hle
  have hpos : (0:ℝ) < Real.sqrt 2 := Real.sqrt_pos.mpr (by norm_num)
  have hinv : (2:ℝ)⁻¹ ≤ (Real.sqrt 2)⁻¹ := inv_anti₀ hpos h2
  linarith

/-- Shared degenerate-LookAt computation: with target equal to position the
direction, right and recomputed-up vectors are all the zero vector (the
normalise guard fires; nothing is undefined), and the rotation the method
assigns is the definite quaternion (0,0,0,1). -/
theorem lookAtRotation_self (p up : RVec3) :
    (RVec3.sub p p).normalised = ⟨0, 0, 0⟩ ∧
    lookAtRotation p p up = ⟨0, 0, 0, 1⟩ := by
  have hsub : RVec3.sub p p = (⟨0, 0, 0⟩ : RVec3) := by
    simp [RVec3.sub]
  have hcross : RVec3.cross up ⟨0, 0, 0⟩ = (⟨0, 0, 0⟩ : RVec3) := by
    simp [RVec3.cross]
  have hcross2 : RVec3.cross ⟨0, 0, 0⟩ ⟨0, 0, 0⟩ = (⟨0, 0, 0⟩ : RVec3) := by
    simp [RVec3.cross]
  refine ⟨by rw [hsub]; exact RVec3.normalised_zero, ?_⟩
  simp only [lookAtRotation]
  rw [hsub, RVec3.normalised_zero, hcross, RVec3.normalised_zero, hcross2]
  exact fromRotationMatrix_zeroMat

/-- C6 counterexample, at position = target = (1,2,3), up = (0,1,0): the
claim's words predict an unguarded normalise whose zero-length input yields
an undefined (NaN) direction — modelled by normalisedUnguardedClaim
returning none — but the source's Vec3::normalised guards the zero-length
input and returns the defined zero vector, and the rotation LookAt assigns
is the definite quaternion (0,0,0,1): nothing undefined is produced. -/
theorem lookAt_nan_counterexample :
    normalisedUnguardedClaim (RVec3.sub ⟨1, 2, 3⟩ ⟨1, 2, 3⟩) = none ∧
    (RVec3.sub ⟨1, 2, 3⟩ ⟨1, 2, 3⟩).normalised = ⟨0, 0, 0⟩ ∧
    lookAtRotation ⟨1, 2, 3⟩ ⟨1, 2, 3⟩ ⟨0, 1, 0⟩ = ⟨0, 0, 0, 1⟩ := by
  have hsub : RVec3.sub ⟨1, 2, 3⟩ ⟨1, 2, 3⟩ = (⟨0, 0, 0⟩ : RVec3) := by
    norm_num [RVec3.sub, RVec3.mk.injEq]
  refine ⟨?_, ?_, (lookAtRotation_self ⟨1, 2, 3⟩ ⟨0, 1, 0⟩).2⟩
  · rw [hsub]
    unfold normalisedUnguardedClaim
    rw [RVec3.length_zero, if_pos rfl]
  · rw [hsub]
    exact RVec3.normalised_zero

/-- C6 amended: LookAt itself has no guard against target == position, but
the zero-length difference is clamped by Vec3::normalised (which returns
the zero vector below the 1e-6 threshold), so no NaN/undefined direction is
produced: the degenerate basis is all zeros and the rotation assigned is
the well-defined quaternion (0,0,0,1). -/
theorem lookAt_degenerate_guarded (p up : RVec3) :
    (RVec3.sub p p).normalised = ⟨0, 0, 0⟩ ∧
    lookAtRotation p p up = ⟨0, 0, 0, 1⟩ :=
  lookAtRotation_self p up

/-- A unit-length quaternion passes the guard and is returned unchanged by
normalised (the division is by one). -/
theorem RQuat.normalised_of_unit (q : RQuat) (h : q.length = 1) :
    q.normalised = q := by
  unfold RQuat.normalised
  rw [h, if_neg (by norm_num)]
  cases q
  simp

/-- Unit length means the sum of the component squares is one. -/
theorem RQuat.normSq_of_unit (q : RQuat) (h : q.length = 1) :
    q.w * q.w + q.x * q.x + q.y * q.y + q.z * q.z = 1 :=
  Real.sqrt_eq_one.mp h

/-- A vector whose sum of squares is one has length one. -/
theorem RVec3.length_eq_one (v : RVec3)
    (h : v.x * v.x + v.y * v.y + v.z * v.z = 1) : v.length = 1 := by
  unfold RVec3.length
  rw [h, Real.sqrt_one]

/-- C9: for a Transform whose rotation quaternion has unit length, the
vectors returned by Forward(), Right() and Up() are mutually orthogonal and
of unit length, within the claimed 1e-5 tolerance (exactly, in the real
idealisation). -/
theorem forward_right_up_orthonormal (q : RQuat) (h : q.length = 1) :
    |RVec3.dot (forwardOf q) (rightOf q)| ≤ 1 / 100000 ∧
    |RVec3.dot (forwardOf q) (upOf q)| ≤ 1 / 100000 ∧
    |RVec3.dot (rightOf q) (upOf q)| ≤ 1 / 100000 ∧
    |(forwardOf q).length - 1| ≤ 1 / 100000 ∧
    |(rightOf q).length - 1| ≤ 1 / 100000 ∧
    |(upOf q).length - 1| ≤ 1 / 100000 := by
  have hs := RQuat.normSq_of_unit q h
  have hn := RQuat.normalised_of_unit q h
  obtain ⟨w, x, y, z⟩ := q
  have hd1 : RVec3.dot (forwardOf ⟨w, x, y, z⟩) (rightOf ⟨w, x, y, z⟩) = 0 := by
    simp only [forwardOf, rightOf, RQuat.rotateVector, hn, RQuat.conjugate, RQuat.mul,
      RVec3.dot]
    ring
  have hd2 : RVec3.dot (forwardOf ⟨w, x, y, z⟩) (upOf ⟨w, x, y, z⟩) = 0 := by
    simp only [forwardOf, upOf, RQuat.rotateVector, hn, RQuat.conjugate, RQuat.mul,
      RVec3.dot]
    ring
  have hd3 : RVec3.dot (rightOf ⟨w, x, y, z⟩) (upOf ⟨w, x, y, z⟩) = 0 := by
    simp only [rightOf, upOf, RQuat.rotateVector, hn, RQuat.conjugate, RQuat.mul,
      RVec3.dot]
    ring
  have hl1 : (forwardOf ⟨w, x, y, z⟩).length = 1 := by
    apply RVec3.length_eq_one
    simp only [forwardOf, RQuat.rotateVector, hn, RQuat.conjugate, RQuat.mul]
    linear_combination (w * w + x * x + y * y + z * z + 1) * hs
  have hl2 : (rightOf ⟨w, x, y, z⟩).length = 1 := by
    apply RVec3.length_eq_one
    simp only [rightOf, RQuat.rotateVector, hn, RQuat.conjugate, RQuat.mul]
    linear_combination (w * w + x * x + y * y + z * z + 1) * hs
  have hl3 : (upOf ⟨w, x, y, z⟩).length = 1 := by
    apply RVec3.length_eq_one
    simp only [upOf, RQuat.rotateVector, hn, RQuat.conjugate, RQuat.mul]
    linear_combination (w * w + x * x + y * y + z * z + 1) * hs
  refine ⟨?_, ?_, ?_, ?_, ?_, ?_⟩
  · rw [hd1]; norm_num
  · rw [hd2]; norm_num
  · rw [hd3]; norm_num
  · rw [hl1]; norm_num
  · rw [hl2]; norm_num
  · rw [hl3]; norm_num

/-- Witness for C9 at the identity quaternion. -/
theorem forward_right_up_orthonormal_w :
    RQuat.length ⟨1, 0, 0, 0⟩ = 1 ∧
    |RVec3.dot (forwardOf ⟨1, 0, 0, 0⟩) (rightOf ⟨1, 0, 0, 0⟩)| ≤ 1 / 100000 :=
  ⟨by
    show Real.sqrt (1 * 1 + 0 * 0 + 0 * 0 + 0 * 0) = 1
    norm_num,
   (forward_right_up_orthonormal ⟨1, 0, 0, 0⟩ (by
    show Real.sqrt (1 * 1 + 0 * 0 + 0 * 0 + 0 * 0) = 1
    norm_num)).1⟩
